import Mathlib

/-!
Verification of the langgraph streaming-tokens workflow against its
specification.  The notebook under src defines the message state, the
search tool, the routing function should_continue, the model-calling node
call_model and the two-node graph wiring.  The engine pieces the notebook
imports (the add_messages reducer, StateGraph compilation, the execution
scheduler, the ToolNode and the streaming multiplexer) are not under src,
so they are modelled from the specification, as marked on each definition.
-/

/-- A pending tool call carried by an assistant message: name, argument
string and correlation id. -/
structure ToolCall where
  name : String
  args : String
  callId : String
deriving DecidableEq

/-- The kind of a message in the messages channel: user input, assistant
output carrying zero or more pending tool calls, or a tool result tagged
with the callId it answers and the tool output. -/
inductive MsgKind where
  | user : MsgKind
  | assistant : List ToolCall → MsgKind
  | toolResult : String → List String → MsgKind
deriving DecidableEq

/-- A message: identifier (used by the append-with-upsert reducer), text
content, and kind. -/
structure Message where
  id : String
  content : String
  kind : MsgKind
deriving DecidableEq

/-- The pending tool calls of a message; non-assistant messages have none. -/
def Message.tool_calls (m : Message) : List ToolCall :=
  match m.kind with
  | .assistant tcs => tcs
  | _ => []

/-- The callId answered by a tool-result message, if any. -/
def resultCallId (m : Message) : Option String :=
  match m.kind with
  | .toolResult cid _ => some cid
  | _ => none

/-- The output list carried by a tool-result message, if any. -/
def resultOutput (m : Message) : Option (List String) :=
  match m.kind with
  | .toolResult _ out => some out
  | _ => none

/-- Modelled from the spec: one step of the append-with-upsert reducer
(langgraph.graph.message.add_messages is imported by the notebook but its
source is not under src).  An incoming item whose identifier matches an
existing item replaces that item in place, preserving position; otherwise
it is appended. -/
def upsertOne (acc : List Message) (m : Message) : List Message :=
  if acc.any (fun x => x.id == m.id) then
    acc.map (fun x => if x.id = m.id then m else x)
  else acc ++ [m]

/-- Modelled from the spec: the add_messages reducer folds the incoming
items left to right through the upsert step. -/
def add_messages (left right : List Message) : List Message :=
  right.foldl upsertOne left

/-- The Terminal Sentinel: the reserved routing target meaning the run
completes (langgraph END). -/
def END : String := "__end__"

/-- The shared state: a mapping from channel name to the value of that
channel.  The demonstrated graph declares one channel, messages. -/
def GState : Type := String → List Message

/-- A partial update: the channels present in the update, with the
incoming contribution for each. -/
def Upd : Type := List (String × List Message)

/-- Modelled from the spec, section 4.1: applyUpdate applies, per channel
present in the update, the reducer of that channel to the current value and
the incoming value, and leaves every other channel untouched. -/
def applyUpdate {α : Type} (red : String → α → α → α) (s : String → α)
    (upd : List (String × α)) : String → α :=
  fun c =>
    match upd.find? (fun q => q.1 == c) with
    | some q => red c (s c) q.2
    | none => s c

/-- A node capability in Direct form: consumes a state view, produces one
partial update. -/
def NodeCap : Type := GState → Upd

/-- A conditional edge: source node, routing function, declared allowed
targets.  The routing function returns none when it raises (for example
indexing an empty messages sequence). -/
structure CondEdge where
  src : String
  route : GState → Option String
  allowed : List String

/-- A graph definition: nodes, static edges, conditional edges, entry node
and the reducer registry for the state channels. -/
structure Graph where
  nodes : List (String × NodeCap)
  edges : List (String × String)
  conds : List CondEdge
  entry : Option String
  reducers : String → List Message → List Message → List Message

/-- The capability of a declared node, by id. -/
def nodeCapOf (g : Graph) (n : String) : Option NodeCap :=
  (g.nodes.find? (fun p => p.1 == n)).map (fun p => p.2)

/-- The static successor of a node, if a static edge is declared. -/
def staticNext (g : Graph) (n : String) : Option String :=
  (g.edges.find? (fun e => e.1 == n)).map (fun e => e.2)

/-- The conditional edge departing a node, if declared. -/
def condOf (g : Graph) (n : String) : Option CondEdge :=
  g.conds.find? (fun c => c.src == n)

/-- Whether a node id is declared in the graph. -/
def declared (g : Graph) (n : String) : Bool :=
  g.nodes.any (fun p => p.1 == n)

/-- Modelled from the spec, section 4.2: compile validates that an entry
node exists and is declared, that every static edge endpoint is declared,
and that every conditional edge has a declared source and a non-empty
allowed-target set whose members are declared nodes or the Terminal
Sentinel.  Validation is purely static membership over declared names: the
routing functions are never evaluated. -/
def compile (g : Graph) : Except String Graph :=
  match g.entry with
  | none => Except.error "GraphValidationError: missing entry node"
  | some e =>
    if declared g e
        && g.edges.all (fun ed => declared g ed.1 && declared g ed.2)
        && g.conds.all (fun c =>
            declared g c.src && !c.allowed.isEmpty
              && c.allowed.all (fun t => (t == END) || declared g t))
    then Except.ok g
    else Except.error "GraphValidationError: dangling reference"

/-- Run status of a run: completed, or failed with the kind of failure. -/
inductive RunStatus where
  | completed : RunStatus
  | failedRouting : String → RunStatus
  | failedStepLimit : RunStatus
  | failedNode : RunStatus
deriving DecidableEq

/-- The result of a run: final accumulated state, status, and the node
activation trace in order. -/
structure RunResult where
  finalState : GState
  status : RunStatus
  trace : List String

/-- Modelled from the spec, section 4.3: the execution scheduler.  Each
step activates the current node with the accumulated state, applies its
partial update through the reducer registry, then follows the static edge
if declared, else evaluates the conditional edge: the Terminal Sentinel
completes the run, an allowed target continues, and any other returned
target fails the run with a RoutingError while retaining the state up to
the last applied update.  The fuel argument is the step fuse
(StepLimitExceeded). -/
def runFrom (g : Graph) : Nat → String → GState → List String → RunResult
  | 0, _, st, tr => ⟨st, RunStatus.failedStepLimit, tr⟩
  | fuel + 1, cur, st, tr =>
    match nodeCapOf g cur with
    | none => ⟨st, RunStatus.failedNode, tr⟩
    | some cap =>
      let stNew := applyUpdate g.reducers st (cap st)
      let trNew := tr ++ [cur]
      match staticNext g cur with
      | some nxt => runFrom g fuel nxt stNew trNew
      | none =>
        match condOf g cur with
        | none => ⟨stNew, RunStatus.completed, trNew⟩
        | some ce =>
          match ce.route stNew with
          | none => ⟨stNew, RunStatus.failedNode, trNew⟩
          | some t =>
            if t = END then ⟨stNew, RunStatus.completed, trNew⟩
            else if ce.allowed.contains t then runFrom g fuel t stNew trNew
            else ⟨stNew, RunStatus.failedRouting t, trNew⟩

/-- Run a graph from its entry node on an initial state. -/
def runGraph (g : Graph) (fuel : Nat) (init : GState) : RunResult :=
  match g.entry with
  | none => ⟨init, RunStatus.failedNode, []⟩
  | some e => runFrom g fuel e init []

/-- A state holding the given messages in the messages channel and nothing
elsewhere. -/
def mkState (messages : List Message) : GState :=
  fun c => if c = "messages" then messages else []

/-- The placeholder search tool from the notebook: returns a constant
one-element list regardless of the query. -/
def search (query : String) : List String :=
  ["Cloudy with a chance of hail."]

/-- The tool registry injected into the tool node: the single search tool. -/
def toolRegistry : List (String × (String → List String)) :=
  [("search", search)]

/-- Modelled from the spec, section 4.5: execute one pending tool call.
The name is looked up in the registry; an unknown name yields a structured
failure result rather than raising.  The result is a tool-result message
tagged with the callId of the call. -/
def execToolCall (registry : List (String × (String → List String)))
    (tc : ToolCall) : Message :=
  match registry.find? (fun p => p.1 == tc.name) with
  | some p =>
    { id := "tool_" ++ tc.callId, content := "",
      kind := MsgKind.toolResult tc.callId (p.2 tc.args) }
  | none =>
    { id := "tool_" ++ tc.callId, content := "",
      kind := MsgKind.toolResult tc.callId ["ToolCallFailure: unknown tool"] }

/-- Modelled from the spec, section 4.5: the Tool Invocation Node
(langgraph.prebuilt.ToolNode is imported by the notebook but its source is
not under src).  It reads the most recent entry of the messages channel,
extracts the pending tool calls, executes each against the registry, and
returns one combined partial update appending one tool-result entry per
pending call.  Zero pending calls yield an empty update. -/
def tool_node (registry : List (String × (String → List String))) : NodeCap :=
  fun state =>
    match (state "messages").getLast? with
    | none => []
    | some lastMessage =>
      match lastMessage.tool_calls with
      | [] => []
      | tcs => [("messages", tcs.map (execToolCall registry))]

/-- The routing function from the notebook: inspect the last message of
the messages channel; with no pending tool calls finish (END), otherwise
continue to the tools node.  Indexing the last element of an empty
sequence fails, modelled as none. -/
def should_continue (state : GState) : Option String :=
  match (state "messages").getLast? with
  | none => none
  | some lastMessage =>
    if lastMessage.tool_calls = [] then some END else some "tools"

/-- The model-calling node from the notebook: invoke the (external) model
on the messages channel and contribute the single response message to the
messages channel. -/
def call_model (model : List Message → Message) : NodeCap :=
  fun state => [("messages", [model (state "messages")])]

/-- The declared allowed targets of the conditional edge leaving the agent
node, as in the notebook: tools or END. -/
def agentAllowedTargets : List String := ["tools", END]

/-- The two-node graph from the notebook: nodes agent and tools, entry
agent, conditional edge from agent routed by should_continue with allowed
targets tools and END, static edge from tools back to agent.  The messages
channel merges through add_messages. -/
def workflow (model : List Message → Message) : Graph where
  nodes := [("agent", call_model model), ("tools", tool_node toolRegistry)]
  edges := [("tools", "agent")]
  conds := [{ src := "agent", route := should_continue,
              allowed := agentAllowedTargets }]
  entry := some "agent"
  reducers := fun _ => add_messages

/-- The user message opening the end-to-end scenario. -/
def userMsg : Message :=
  { id := "u1", content := "what is the weather in sf", kind := MsgKind.user }

/-- The pending search call emitted by the first agent activation. -/
def searchCall : ToolCall :=
  { name := "search", args := "weather in San Francisco", callId := "c1" }

/-- The assistant message of the first agent activation, carrying the
pending search call. -/
def assistantCallMsg : Message :=
  { id := "a1", content := "", kind := MsgKind.assistant [searchCall] }

/-- The tool-result message produced by the tools node for the search
call. -/
def toolResultMsg : Message :=
  { id := "tool_c1", content := "",
    kind := MsgKind.toolResult "c1" ["Cloudy with a chance of hail."] }

/-- The final assistant message of the second agent activation, with no
pending calls. -/
def assistantFinalMsg : Message :=
  { id := "a2",
    content := "The weather in San Francisco is currently cloudy with a chance of hail.",
    kind := MsgKind.assistant [] }

/-- The model behaviour hypothesised by the end-to-end scenario: before a
tool result is present, answer with the pending search call; after seeing
a tool result, answer with the final message carrying no pending calls. -/
def exampleModel (messages : List Message) : Message :=
  if messages.any (fun m =>
      match m.kind with
      | MsgKind.toolResult _ _ => true
      | _ => false)
  then assistantFinalMsg else assistantCallMsg

/-- Test items for the append-with-upsert property: an unrelated message. -/
def msgB : Message := { id := "B", content := "z", kind := MsgKind.user }

/-- Test item: first chunk of the in-progress message with id A. -/
def msgAx : Message := { id := "A", content := "x", kind := MsgKind.user }

/-- Test item: updated form of the message with id A. -/
def msgAxy : Message := { id := "A", content := "xy", kind := MsgKind.user }

/-- A model that always answers with an assistant message carrying the
pending search call, regardless of its input. -/
def pendingModel (messages : List Message) : Message := assistantCallMsg

/-- The two-node graph with a defective conditional edge: the declared
allowed targets omit tools, which should_continue actually returns. -/
def badWorkflow : Graph where
  nodes := [("agent", call_model pendingModel), ("tools", tool_node toolRegistry)]
  edges := [("tools", "agent")]
  conds := [{ src := "agent", route := should_continue, allowed := [END] }]
  entry := some "agent"
  reducers := fun _ => add_messages

/-- A model that always answers with a fixed pending-call-free assistant
message whose id collides with an existing message id. -/
def collideModel (messages : List Message) : Message :=
  { id := "x", content := "done", kind := MsgKind.assistant [] }

/-- Initial message whose id collides with the collideModel answer. -/
def collideMsgX : Message := { id := "x", content := "", kind := MsgKind.user }

/-- Initial last message carrying a pending tool call. -/
def collideMsgY : Message :=
  { id := "y", content := "", kind := MsgKind.assistant [searchCall] }

/-- A model that always answers with the final assistant message, which
carries no pending tool calls. -/
def noCallModel (messages : List Message) : Message := assistantFinalMsg

theorem upsertOne_fresh (st : List Message) (m : Message)
    (h : ∀ x ∈ st, x.id ≠ m.id) : upsertOne st m = st ++ [m] := by
  have hany : st.any (fun x => x.id == m.id) = false := by
    simp only [List.any_eq_false, beq_iff_eq]
    exact h
  unfold upsertOne
  rw [hany]
  rfl

theorem map_upsert_id (st : List Message) (m : Message)
    (h : ∀ x ∈ st, x.id ≠ m.id) :
    st.map (fun x => if x.id = m.id then m else x) = st := by
  induction st with
  | nil => rfl
  | cons a as ih =>
    have ha : a.id ≠ m.id := h a (List.mem_cons_self a as)
    have has : ∀ x ∈ as, x.id ≠ m.id :=
      fun x hx => h x (List.mem_cons_of_mem a hx)
    simp only [List.map_cons, if_neg ha, ih has]

theorem upsertOne_replace (st : List Message) (m : Message)
    (h : st.any (fun x => x.id == m.id) = true) :
    upsertOne st m = st.map (fun x => if x.id = m.id then m else x) := by
  unfold upsertOne
  rw [h]
  rfl

theorem runFrom_terminal_step (g : Graph) (fuel : Nat) (cur : String)
    (st : GState) (tr : List String) (cap : NodeCap) (ce : CondEdge)
    (hcap : nodeCapOf g cur = some cap) (hstat : staticNext g cur = none)
    (hcond : condOf g cur = some ce)
    (hroute : ce.route (applyUpdate g.reducers st (cap st)) = some END) :
    runFrom g (fuel + 1) cur st tr
      = ⟨applyUpdate g.reducers st (cap st), RunStatus.completed, tr ++ [cur]⟩ := by
  simp [runFrom, hcap, hstat, hcond, hroute]

theorem runFrom_routing_error_step (g : Graph) (fuel : Nat) (cur : String)
    (st : GState) (tr : List String) (cap : NodeCap) (ce : CondEdge) (t : String)
    (hcap : nodeCapOf g cur = some cap) (hstat : staticNext g cur = none)
    (hcond : condOf g cur = some ce)
    (hroute : ce.route (applyUpdate g.reducers st (cap st)) = some t)
    (hterm : t ≠ END) (hmem : ce.allowed.contains t = false) :
    runFrom g (fuel + 1) cur st tr
      = ⟨applyUpdate g.reducers st (cap st), RunStatus.failedRouting t,
         tr ++ [cur]⟩ := by
  have hnotmem : ¬ t ∈ ce.allowed := by simpa using hmem
  simp [runFrom, hcap, hstat, hcond, hroute, hterm, hnotmem]

/-- C1: compiling the two-node workflow succeeds, and running it on the
initial state holding the single user question, with the scenario model
(first activation: assistant with one pending search call; second
activation, after the tool result: assistant with no pending calls),
completes with a messages channel of exactly four entries in order User,
Assistant with the pending call, ToolResult with output
"Cloudy with a chance of hail.", final Assistant, the tools node having
run once between the two agent activations. -/
theorem c1_end_to_end :
    compile (workflow exampleModel) = Except.ok (workflow exampleModel)
    ∧ (runGraph (workflow exampleModel) 10 (mkState [userMsg])).status
        = RunStatus.completed
    ∧ (runGraph (workflow exampleModel) 10 (mkState [userMsg])).finalState "messages"
        = [userMsg, assistantCallMsg, toolResultMsg, assistantFinalMsg]
    ∧ resultOutput toolResultMsg = some ["Cloudy with a chance of hail."]
    ∧ (runGraph (workflow exampleModel) 10 (mkState [userMsg])).trace
        = ["agent", "tools", "agent"] :=
  ⟨rfl, rfl, rfl, rfl, rfl⟩

/-- C4: on every state with a non-empty messages sequence, the routing
function should_continue returns a target, and that target lies in the
declared allowed-target set of the conditional edge leaving the agent node
(which itself contains the Terminal Sentinel END). -/
theorem c4_routing_in_allowed (state : GState)
    (h : state "messages" ≠ []) :
    ∃ t, should_continue state = some t
      ∧ (agentAllowedTargets.contains t ∨ t = END) := by
  unfold should_continue
  cases hl : (state "messages").getLast? with
  | none =>
    exact absurd (List.getLast?_eq_none_iff.mp hl) h
  | some lastMessage =>
    by_cases hc : lastMessage.tool_calls = []
    · exact ⟨END, by simp [hc], Or.inr rfl⟩
    · exact ⟨"tools", by simp [hc], Or.inl (by decide)⟩

/-- Witness for C4 at the concrete post-agent state of the scenario. -/
theorem c4_routing_in_allowed_witness :
    ∃ t, should_continue (mkState [userMsg, assistantCallMsg]) = some t
      ∧ (agentAllowedTargets.contains t ∨ t = END) :=
  c4_routing_in_allowed (mkState [userMsg, assistantCallMsg]) (by decide)

/-- C9: should_continue inspects the last element of the messages channel:
on every state with a non-empty messages sequence the access succeeds and
the result is END or tools, while on a state with an empty messages
sequence the indexing fails (the error branch, modelled as none, is
reachable), so the function is total only under the precondition that the
messages channel is non-empty when the conditional edge is evaluated. -/
theorem c9_should_continue_totality :
    (∀ state : GState, state "messages" ≠ [] →
        should_continue state = some END ∨ should_continue state = some "tools")
    ∧ (∀ state : GState, state "messages" = [] → should_continue state = none) := by
  constructor
  · intro state h
    unfold should_continue
    cases hl : (state "messages").getLast? with
    | none => exact absurd (List.getLast?_eq_none_iff.mp hl) h
    | some lastMessage =>
      by_cases hc : lastMessage.tool_calls = []
      · exact Or.inl (by simp [hc])
      · exact Or.inr (by simp [hc])
  · intro state h
    unfold should_continue
    rw [h]
    rfl

/-- Witness for C9: both branches at concrete states — the non-empty state
of the scenario routes, and the empty state fails. -/
theorem c9_should_continue_totality_witness :
    (should_continue (mkState [userMsg]) = some END
        ∨ should_continue (mkState [userMsg]) = some "tools")
    ∧ should_continue (mkState []) = none :=
  ⟨c9_should_continue_totality.1 (mkState [userMsg]) (by decide),
   c9_should_continue_totality.2 (mkState []) rfl⟩

/-- C10: the search tool returns the constant one-element list
"Cloudy with a chance of hail." for every query string, and consequently
every pending call named search executed by the tool node yields a
tool-result entry carrying exactly that output, tagged with its callId. -/
theorem c10_search_constant :
    (∀ q : String, search q = ["Cloudy with a chance of hail."])
    ∧ (∀ tc : ToolCall, tc.name = "search" →
        execToolCall toolRegistry tc
          = { id := "tool_" ++ tc.callId, content := "",
              kind := MsgKind.toolResult tc.callId
                        ["Cloudy with a chance of hail."] }) := by
  constructor
  · intro q
    rfl
  · intro tc h
    unfold execToolCall toolRegistry
    rw [h]
    rfl

/-- Witness for C10 at the concrete pending call of the scenario. -/
theorem c10_search_constant_witness :
    execToolCall toolRegistry searchCall
      = { id := "tool_" ++ searchCall.callId, content := "",
          kind := MsgKind.toolResult searchCall.callId
                    ["Cloudy with a chance of hail."] } :=
  c10_search_constant.2 searchCall rfl

/-- C2 counterexample: starting from a state already holding an unrelated
message, applying the partial with the new id A and then its updated form
does not yield a single-element sequence: the result has two entries, so
the claim as universally quantified over the starting state is false. -/
theorem c2_counterexample :
    add_messages (add_messages [msgB] [msgAx]) [msgAxy] ≠ [msgAxy]
    ∧ (add_messages (add_messages [msgB] [msgAx]) [msgAxy]).length = 2 :=
  ⟨by decide, rfl⟩

/-- C2 amended: starting from any state containing no entry with id A,
applying the partial with id A and text x and then the partial with id A
and text xy appends exactly one entry: the second incoming item replaces
the first in place rather than being appended as a second entry, so the
result is the original sequence extended by the single entry with id A and
text xy (in particular, exactly that one entry when starting empty). -/
theorem c2_amended (st : List Message) (h : ∀ x ∈ st, x.id ≠ "A") :
    add_messages (add_messages st [msgAx]) [msgAxy] = st ++ [msgAxy] := by
  have h1 : add_messages st [msgAx] = st ++ [msgAx] := by
    show upsertOne st msgAx = st ++ [msgAx]
    exact upsertOne_fresh st msgAx h
  show upsertOne (add_messages st [msgAx]) msgAxy = st ++ [msgAxy]
  rw [h1]
  have hany : (st ++ [msgAx]).any (fun x => x.id == msgAxy.id) = true := by
    simp [msgAx, msgAxy]
  rw [upsertOne_replace _ _ hany, List.map_append]
  rw [map_upsert_id st msgAxy (fun x hx => h x hx)]
  rfl

/-- Witness for the amended C2 at the empty starting state. -/
theorem c2_amended_witness :
    add_messages (add_messages [] [msgAx]) [msgAxy] = [] ++ [msgAxy] :=
  c2_amended [] (by intro x hx; cases hx)

/-- C3 counterexample: with an agent whose first activation returns an
assistant message with no pending tool calls but whose id collides with a
non-final existing entry, the upsert replaces that entry in place, the
last message still carries a pending call, and the run activates tools
once and agent twice before completing — refuting the claim for every
initial state. -/
theorem c3_counterexample :
    (collideModel (mkState [collideMsgX, collideMsgY] "messages")).tool_calls = []
    ∧ (runGraph (workflow collideModel) 10
        (mkState [collideMsgX, collideMsgY])).status = RunStatus.completed
    ∧ (runGraph (workflow collideModel) 10
        (mkState [collideMsgX, collideMsgY])).trace = ["agent", "tools", "agent"]
    ∧ (runGraph (workflow collideModel) 10
        (mkState [collideMsgX, collideMsgY])).trace ≠ ["agent"] :=
  ⟨rfl, rfl, rfl, by decide⟩

/-- C3 amended: for every initial state and model, if the first agent
activation returns an assistant message with no pending tool calls whose
id does not occur among the existing messages, the run terminates with
status Completed after exactly one agent activation and zero tools
activations, the final messages channel being the initial sequence with
that one message appended. -/
theorem c3_amended (model : List Message → Message) (init : List Message)
    (fuel : Nat) (hcalls : (model init).tool_calls = [])
    (hfresh : ∀ x ∈ init, x.id ≠ (model init).id) :
    (runGraph (workflow model) (fuel + 1) (mkState init)).status
        = RunStatus.completed
    ∧ (runGraph (workflow model) (fuel + 1) (mkState init)).trace = ["agent"]
    ∧ (runGraph (workflow model) (fuel + 1) (mkState init)).finalState "messages"
        = init ++ [model init] := by
  have hmsgs : applyUpdate (workflow model).reducers (mkState init)
      (call_model model (mkState init)) "messages" = init ++ [model init] := by
    show upsertOne init (model init) = init ++ [model init]
    exact upsertOne_fresh init (model init) hfresh
  have hroute : should_continue (applyUpdate (workflow model).reducers
      (mkState init) (call_model model (mkState init))) = some END := by
    unfold should_continue
    rw [hmsgs, List.getLast?_concat]
    simp [hcalls]
  have hrun := runFrom_terminal_step (workflow model) fuel "agent"
      (mkState init) [] (call_model model)
      { src := "agent", route := should_continue, allowed := agentAllowedTargets }
      rfl rfl rfl hroute
  refine ⟨?_, ?_, ?_⟩
  · show (runFrom (workflow model) (fuel + 1) "agent" (mkState init) []).status = _
    rw [hrun]
  · show (runFrom (workflow model) (fuel + 1) "agent" (mkState init) []).trace = _
    rw [hrun]
    rfl
  · show (runFrom (workflow model) (fuel + 1) "agent" (mkState init) []).finalState
        "messages" = _
    rw [hrun]
    exact hmsgs

/-- Witness for the amended C3: a model answering without pending calls on
the scenario input completes after the single agent activation. -/
theorem c3_amended_witness :
    (runGraph (workflow noCallModel) (5 + 1) (mkState [userMsg])).status
        = RunStatus.completed
    ∧ (runGraph (workflow noCallModel) (5 + 1) (mkState [userMsg])).trace
        = ["agent"]
    ∧ (runGraph (workflow noCallModel) (5 + 1)
        (mkState [userMsg])).finalState "messages"
        = [userMsg] ++ [noCallModel [userMsg]] :=
  c3_amended noCallModel [userMsg] 5 rfl (by decide)

/-- C7: compiling the graph whose conditional edge omits tools from its
allowed targets succeeds (validation is purely static membership over
declared names), even though the routing function actually returns tools
on the state reached after the first agent activation; and in every run,
whenever a routing function returns a target that is neither the Terminal
Sentinel nor in its declared allowed targets, the run fails at that step
with a RoutingError, retaining the state up to the last applied update. -/
theorem c7_static_validation_runtime_routing :
    compile badWorkflow = Except.ok badWorkflow
    ∧ should_continue (applyUpdate badWorkflow.reducers (mkState [userMsg])
        (call_model pendingModel (mkState [userMsg]))) = some "tools"
    ∧ ∀ (g : Graph) (fuel : Nat) (cur : String) (st : GState)
        (tr : List String) (cap : NodeCap) (ce : CondEdge) (t : String),
        nodeCapOf g cur = some cap → staticNext g cur = none →
        condOf g cur = some ce →
        ce.route (applyUpdate g.reducers st (cap st)) = some t →
        t ≠ END → ce.allowed.contains t = false →
        runFrom g (fuel + 1) cur st tr
          = ⟨applyUpdate g.reducers st (cap st), RunStatus.failedRouting t,
             tr ++ [cur]⟩ := by
  refine ⟨rfl, rfl, ?_⟩
  intro g fuel cur st tr cap ce t hcap hstat hcond hroute hterm hmem
  exact runFrom_routing_error_step g fuel cur st tr cap ce t
    hcap hstat hcond hroute hterm hmem

/-- Witness for C7: the defective graph fails with a RoutingError on the
scenario input, with the state after the agent update retained. -/
theorem c7_static_validation_runtime_routing_witness :
    runFrom badWorkflow (3 + 1) "agent" (mkState [userMsg]) []
      = ⟨applyUpdate badWorkflow.reducers (mkState [userMsg])
          (call_model pendingModel (mkState [userMsg])),
         RunStatus.failedRouting "tools", [] ++ ["agent"]⟩ :=
  c7_static_validation_runtime_routing.2.2 badWorkflow 3 "agent"
    (mkState [userMsg]) [] (call_model pendingModel)
    { src := "agent", route := should_continue, allowed := [END] } "tools"
    rfl rfl rfl rfl (by decide) rfl

/-- C8: applyUpdate changes exactly the channels present in the partial
update — for a channel found in the partial the new value is the reducer
of the current value and the incoming value, a channel not present is left
untouched, and applying an empty partial leaves every channel unchanged. -/
theorem c8_applyUpdate_frame {α : Type} (red : String → α → α → α)
    (s : String → α) (upd : List (String × α)) :
    (∀ c v, upd.find? (fun q => q.1 == c) = some (c, v) →
        applyUpdate red s upd c = red c (s c) v)
    ∧ (∀ c, upd.find? (fun q => q.1 == c) = none →
        applyUpdate red s upd c = s c)
    ∧ (∀ c, applyUpdate red s ([] : List (String × α)) c = s c) := by
  refine ⟨?_, ?_, ?_⟩
  · intro c v h
    unfold applyUpdate
    rw [h]
  · intro c h
    unfold applyUpdate
    rw [h]
  · intro c
    rfl

/-- Reducer used by the C8 witness. -/
def c8Red : String → Nat → Nat → Nat := fun _ a b => a + b

/-- State used by the C8 witness. -/
def c8St : String → Nat := fun _ => 1

/-- Witness for C8: the three frame facts at a concrete one-channel
update. -/
theorem c8_applyUpdate_frame_witness :
    applyUpdate c8Red c8St [("messages", 2)] "messages"
        = c8Red "messages" (c8St "messages") 2
    ∧ applyUpdate c8Red c8St [("messages", 2)] "other" = c8St "other"
    ∧ applyUpdate c8Red c8St ([] : List (String × Nat)) "messages"
        = c8St "messages" :=
  ⟨(c8_applyUpdate_frame c8Red c8St [("messages", 2)]).1 "messages" 2 rfl,
   (c8_applyUpdate_frame c8Red c8St [("messages", 2)]).2.1 "other" rfl,
   (c8_applyUpdate_frame c8Red c8St [("messages", 2)]).2.2 "messages"⟩

theorem resultCallId_execToolCall
    (registry : List (String × (String → List String))) (tc : ToolCall) :
    resultCallId (execToolCall registry tc) = some tc.callId := by
  unfold execToolCall
  cases registry.find? (fun p => p.1 == tc.name) with
  | none => rfl
  | some p => rfl

theorem filter_callId_length_one (tcs : List ToolCall) (cid : String)
    (hnodup : (tcs.map ToolCall.callId).Nodup)
    (hmem : cid ∈ tcs.map ToolCall.callId) :
    (tcs.filter (fun u => u.callId == cid)).length = 1 := by
  induction tcs with
  | nil => cases hmem
  | cons a as ih =>
    rw [List.map_cons] at hnodup hmem
    rw [List.nodup_cons] at hnodup
    by_cases hac : a.callId = cid
    · have hnot : cid ∉ as.map ToolCall.callId := hac ▸ hnodup.1
      have hzero : (as.filter (fun u => u.callId == cid)).length = 0 := by
        rw [List.length_eq_zero, List.filter_eq_nil_iff]
        intro u hu
        simp only [beq_iff_eq]
        intro he
        exact hnot (he ▸ List.mem_map_of_mem ToolCall.callId hu)
      simp [List.filter_cons, hac, hzero]
    · have hmem2 : cid ∈ as.map ToolCall.callId := by
        rcases List.mem_cons.mp hmem with h1 | h2
        · exact absurd h1.symm hac
        · exact h2
      simp [List.filter_cons, hac, ih hnodup.2 hmem2]

/-- C6: on every state whose last messages entry carries at least one
pending tool call, the Tool Invocation Node returns exactly one combined
partial update, appending exactly one tool-result entry per pending call,
with the result callIds correlated in order to the pending callIds, and —
when the pending callIds are pairwise distinct — each of the callIds
occurring exactly once among the appended entries.  The embedding folds
the per-call results deterministically, so the counts are independent of
the completion order of the concurrent invocations. -/
theorem c6_tool_node (registry : List (String × (String → List String)))
    (state : GState) (lastMessage : Message) (tcs : List ToolCall)
    (hlast : (state "messages").getLast? = some lastMessage)
    (htcs : lastMessage.tool_calls = tcs) (hne : tcs ≠ []) :
    ∃ results : List Message,
      tool_node registry state = [("messages", results)]
      ∧ results.length = tcs.length
      ∧ results.map resultCallId = tcs.map (fun tc => some tc.callId)
      ∧ ((tcs.map ToolCall.callId).Nodup →
          ∀ tc ∈ tcs,
            (results.filter
              (fun r => resultCallId r == some tc.callId)).length = 1) := by
  refine ⟨tcs.map (execToolCall registry), ?_, ?_, ?_, ?_⟩
  · simp only [tool_node, hlast]
    rw [htcs]
    cases tcs with
    | nil => exact absurd rfl hne
    | cons a as => rfl
  · simp
  · simp [resultCallId_execToolCall]
  · intro hnodup tc htc
    rw [List.filter_map, List.length_map]
    have hfun : ((fun r => resultCallId r == some tc.callId)
          ∘ execToolCall registry)
        = fun u => u.callId == tc.callId := by
      funext u
      simp only [Function.comp_apply, resultCallId_execToolCall]
      rfl
    rw [hfun]
    exact filter_callId_length_one tcs tc.callId hnodup
      (List.mem_map_of_mem ToolCall.callId htc)

/-- First pending call of the C6 witness state. -/
def twoCallA : ToolCall := { name := "search", args := "q1", callId := "k1" }

/-- Second pending call of the C6 witness state; its name is not in the
registry, exercising the structured-failure path. -/
def twoCallB : ToolCall := { name := "lookup", args := "q2", callId := "k2" }

/-- Last message of the C6 witness state, carrying two pending calls. -/
def twoCallMsg : Message :=
  { id := "a9", content := "", kind := MsgKind.assistant [twoCallA, twoCallB] }

/-- Witness for C6 at a concrete state with two pending calls. -/
theorem c6_tool_node_witness :
    ∃ results : List Message,
      tool_node toolRegistry (mkState [userMsg, twoCallMsg])
          = [("messages", results)]
      ∧ results.length = ([twoCallA, twoCallB] : List ToolCall).length
      ∧ results.map resultCallId
          = ([twoCallA, twoCallB] : List ToolCall).map (fun tc => some tc.callId)
      ∧ ((([twoCallA, twoCallB] : List ToolCall).map ToolCall.callId).Nodup →
          ∀ tc ∈ ([twoCallA, twoCallB] : List ToolCall),
            (results.filter
              (fun r => resultCallId r == some tc.callId)).length = 1) :=
  c6_tool_node toolRegistry (mkState [userMsg, twoCallMsg]) twoCallMsg
    [twoCallA, twoCallB] rfl rfl (by decide)

/-- A streamed fragment (AIMessageChunk): a content delta and the tool-call
chunks it carries. -/
structure Chunk where
  content : String
  tool_call_chunks : List ToolCall
deriving DecidableEq

/-- The merge of two chunks, as the notebook accumulates them with
gathered = gathered + msg: contents concatenate and tool-call chunks
accumulate in order. -/
def addChunk (a b : Chunk) : Chunk :=
  { content := a.content ++ b.content,
    tool_call_chunks := a.tool_call_chunks ++ b.tool_call_chunks }

/-- The notebook consumer accumulation: the first fragment seeds gathered
and every later fragment is merged in emission order. -/
def gather : List Chunk → Chunk
  | [] => { content := "", tool_call_chunks := [] }
  | c :: cs => cs.foldl addChunk c

/-- Concatenation of a list of strings in order. -/
def joinAll : List String → String
  | [] => ""
  | s :: rest => s ++ joinAll rest

/-- Modelled from the spec, sections 4.3 and 8: the final applied partial
update of a Streaming activation that emitted the given fragments — the
complete message whose content is the concatenation of the fragment
contents in emission order and whose tool-call chunks are the fragment
tool-call chunks in emission order. -/
def streamFinalUpdate (fs : List Chunk) : Chunk :=
  { content := joinAll (fs.map Chunk.content),
    tool_call_chunks := (fs.map Chunk.tool_call_chunks).flatten }

/-- Replace the pending fragment queue of one node. -/
def updateQueue (q : String → List Chunk) (n : String) (v : List Chunk) :
    String → List Chunk :=
  fun m => if m = n then v else q m

/-- Modelled from the spec, section 4.4: the streaming multiplexer.  The
schedule is the real arrival order of fragments across the concurrently
active nodes; each step emits the next pending fragment of the scheduled
node, tagged with its source node id. -/
def multiplex : List String → (String → List Chunk) → List (String × Chunk)
  | [], _ => []
  | n :: sch, q =>
    match q n with
    | [] => multiplex sch q
    | c :: cs => (n, c) :: multiplex sch (updateQueue q n cs)

/-- The fragments delivered for one node, in stream order. -/
def nodeEvents (n : String) (evs : List (String × Chunk)) : List Chunk :=
  (evs.filter (fun e => e.1 == n)).map Prod.snd

theorem foldl_addChunk (cs : List Chunk) (a : Chunk) :
    cs.foldl addChunk a
      = { content := a.content ++ joinAll (cs.map Chunk.content),
          tool_call_chunks :=
            a.tool_call_chunks ++ (cs.map Chunk.tool_call_chunks).flatten } := by
  induction cs generalizing a with
  | nil => simp [joinAll]
  | cons c cs ih =>
    rw [List.foldl_cons, ih]
    simp [addChunk, joinAll, String.append_assoc]

theorem gather_eq_streamFinalUpdate (fs : List Chunk) :
    gather fs = streamFinalUpdate fs := by
  cases fs with
  | nil => rfl
  | cons c cs =>
    show cs.foldl addChunk c = _
    rw [foldl_addChunk]
    simp [streamFinalUpdate, joinAll]

theorem multiplex_nodeEvents (sch : List String) (q : String → List Chunk)
    (n : String) (h : (q n).length ≤ sch.count n) :
    nodeEvents n (multiplex sch q) = q n := by
  induction sch generalizing q with
  | nil =>
    have hq : q n = [] := List.length_eq_zero.mp (Nat.le_zero.mp h)
    simp [multiplex, nodeEvents, hq]
  | cons a sch ih =>
    cases hqa : q a with
    | nil =>
      have hstep : multiplex (a :: sch) q = multiplex sch q := by
        simp [multiplex, hqa]
      rw [hstep]
      apply ih
      by_cases han : a = n
      · subst han
        rw [hqa]
        exact Nat.zero_le _
      · have hcnt : (a :: sch).count n = sch.count n := by
          simp [List.count_cons, han]
        exact hcnt ▸ h
    | cons c cs =>
      have hstep : multiplex (a :: sch) q
          = (a, c) :: multiplex sch (updateQueue q a cs) := by
        simp [multiplex, hqa]
      rw [hstep]
      by_cases han : a = n
      · subst han
        have hne : nodeEvents a ((a, c) :: multiplex sch (updateQueue q a cs))
            = c :: nodeEvents a (multiplex sch (updateQueue q a cs)) := by
          simp [nodeEvents]
        rw [hne, hqa]
        have hupd : updateQueue q a cs a = cs := by simp [updateQueue]
        have hcount : cs.length ≤ sch.count a := by
          have h2 := h
          rw [hqa] at h2
          simp [List.count_cons] at h2
          omega
        have hres := ih (updateQueue q a cs) (by rw [hupd]; exact hcount)
        rw [hres, hupd]
      · have hne : nodeEvents n ((a, c) :: multiplex sch (updateQueue q a cs))
            = nodeEvents n (multiplex sch (updateQueue q a cs)) := by
          simp [nodeEvents, han]
        rw [hne]
        have hupd : updateQueue q a cs n = q n := by
          simp [updateQueue]
          intro hna
          exact absurd hna.symm han
        have hcount : (q n).length ≤ sch.count n := by
          have h2 := h
          simp [List.count_cons, han] at h2
          exact h2
        have hres := ih (updateQueue q a cs) (by rw [hupd]; exact hcount)
        rw [hres, hupd]

/-- C5: for every Streaming activation emitting a finite fragment
sequence, folding the fragments in emission order with the node's own
merge (the notebook's gathered = gathered + msg accumulation) equals the
activation's final applied partial update; and for every arrival schedule,
the multiplexed event stream delivers each node's fragments in their
original relative order (the per-node projection of the stream is exactly
that node's fragment sequence), however they interleave with other nodes'
events. -/
theorem c5_stream_merge_and_order :
    (∀ fs : List Chunk, gather fs = streamFinalUpdate fs)
    ∧ (∀ (sch : List String) (q : String → List Chunk) (n : String),
        (q n).length ≤ sch.count n →
        nodeEvents n (multiplex sch q) = q n) :=
  ⟨gather_eq_streamFinalUpdate, multiplex_nodeEvents⟩

/-- First fragment of the C5 witness. -/
def chunkOne : Chunk := { content := "The", tool_call_chunks := [] }

/-- Second fragment of the C5 witness. -/
def chunkTwo : Chunk := { content := " weather", tool_call_chunks := [] }

/-- Fragment queues of the C5 witness: the agent node holds two pending
fragments, every other node none. -/
def agentQueue : String → List Chunk :=
  fun m => if m = "agent" then [chunkOne, chunkTwo] else []

/-- Witness for C5: the stream of a concrete schedule interleaving the
agent node with another node projects back to the agent fragments in
order. -/
theorem c5_stream_merge_and_order_witness :
    nodeEvents "agent" (multiplex ["agent", "tools", "agent"] agentQueue)
      = agentQueue "agent" :=
  c5_stream_merge_and_order.2 ["agent", "tools", "agent"] agentQueue "agent"
    (by decide)
